import Mathlib

/-!
Verification of the duplicaCI command-composition layer (internal/executor)
and tabular report parser (internal/stats) against their natural-language
specification.  Go string code is embedded shallowly: Go strings become
`String`/`List Char`, `strings.ReplaceAll` with a one-character pattern
becomes `replaceAllC`, the three `regexp` patterns of the parser become
token lists for a small leftmost-first (Perl-semantics) matcher `reRun`,
and process execution becomes an oracle function plus an explicit trace of
launched commands.
-/

namespace Duplicaci

/-- Embeds `strings.ReplaceAll(s, old, new)` for a one-character `old`
(the only shape the repository uses: `\\`, `"`, `$`, a backtick, `'`, `,`
and `-`).  Occurrences are non-overlapping and scanned left to right. -/
def replaceAllC : List Char → Char → List Char → List Char
  | [], _, _ => []
  | c :: cs, old, new =>
    if c = old then new ++ replaceAllC cs old new
    else c :: replaceAllC cs old new

/-- Embeds `strings.Join(args, " ")`. -/
def joinSpace : List String → String
  | [] => ""
  | [a] => a
  | a :: rest => a ++ " " ++ joinSpace rest

/-- Go's `unicode.IsSpace` restricted to ASCII, the only characters reaching
`strings.TrimSpace` here (regex captures contain digits, commas and KMGT). -/
def isGoSpace (c : Char) : Bool :=
  c = ' ' || c = '\t' || c = '\n' || c = Char.ofNat 11 || c = Char.ofNat 12 || c = '\r'

/-- Embeds `strings.TrimSpace`. -/
def trimSpaceL (s : List Char) : List Char :=
  ((s.dropWhile isGoSpace).reverse.dropWhile isGoSpace).reverse

/-- Value of a decimal digit string (most significant first). -/
def natOfDigits : List Char → Nat :=
  List.foldl (fun acc c => acc * 10 + (c.toNat - 48)) 0

/-- Embeds `executor.Options` (src/unnamed/part_000 lines 13-25).  The Go map
`StoragePasswords` becomes an association list (a `nil` map is `[]`); all
other fields are carried verbatim.  Zero values are the field defaults. -/
structure Options where
  DryRun : Bool := false
  Verbose : Bool := false
  DockerContainer : String := ""
  SSHHost : String := ""
  SSHPassword : String := ""
  DuplicacyPath : String := ""
  RepoPath : String := ""
  CacheDir : String := ""
  StoragePassword : String := ""
  StoragePasswords : List (String × String) := []
  GCDToken : String := ""
deriving DecidableEq, Repr

/-- Embeds `getStoragePassword` (lines 252-261): per-storage password first
(exact-match key lookup), then the default.  An empty storage name or a `nil`
map always falls back to the default password. -/
def getStoragePassword (o : Options) (storageName : String) : String :=
  if storageName ≠ "" then
    match o.StoragePasswords.lookup storageName with
    | some pw => pw
    | none => o.StoragePassword
  else o.StoragePassword

/-- Embeds the four sequential `strings.ReplaceAll` calls of lines 203-207:
backslash first, then double quote, then dollar, then backtick; each pass
replaces every occurrence independently. -/
def escapePwL (s : List Char) : List Char :=
  replaceAllC
    (replaceAllC
      (replaceAllC
        (replaceAllC s '\\' ['\\', '\\'])
        '"' ['\\', '"'])
      '$' ['\\', '$'])
    '`' ['\\', '`']

/-- String form of `escapePwL`. -/
def escapePw (s : String) : String := String.mk (escapePwL s.data)

/-- Embeds `strings.ReplaceAll(x, "'", "'\"'\"'")` (lines 68, 72, 237, 243):
every single quote becomes quote, double-quote, quote, double-quote, quote. -/
def escapeSqL (s : List Char) : List Char :=
  replaceAllC s '\'' ['\'', '"', '\'', '"', '\'']

/-- String form of `escapeSqL`. -/
def escapeSq (s : String) : String := String.mk (escapeSqL s.data)

/-- Embeds `strings.ToUpper(strings.ReplaceAll(storageName, "-", "_"))`
(lines 214, 222): hyphens to underscores, then uppercase (storage names are
ASCII, so `Char.toUpper` coincides with Go's `strings.ToUpper`). -/
def upperEnvName (s : String) : String :=
  String.mk ((replaceAllC s.data '-' ['_']).map Char.toUpper)

/-- Embeds `buildCommandWithStorage` (lines 177-249) verbatim: base command,
then `cd` prefix, then (only inside the container branch) password and token
exports, then `docker exec` wrapping (with `sh -c` exactly when a working
directory or password is present), then `ssh`/`sshpass` wrapping. -/
def buildCommandWithStorage (o : Options) (duplicacyBin : String)
    (args : List String) (storageName : String) : String :=
  let duplicacyCmd := duplicacyBin ++ " " ++ joinSpace args
  let workDir := if o.CacheDir ≠ "" then o.CacheDir else o.RepoPath
  let duplicacyCmd :=
    if workDir ≠ "" then "cd " ++ workDir ++ " && " ++ duplicacyCmd else duplicacyCmd
  let duplicacyCmd :=
    if o.DockerContainer ≠ "" then
      let password := getStoragePassword o storageName
      if workDir ≠ "" ∨ password ≠ "" then
        let shellCmd := duplicacyCmd
        let shellCmd :=
          if password ≠ "" then
            let escapedPw := escapePw password
            let exports := "export DUPLICACY_PASSWORD=\"" ++ escapedPw ++ "\""
            let exports :=
              if storageName ≠ "" then
                exports ++ " && export DUPLICACY_" ++ upperEnvName storageName ++
                  "_PASSWORD=\"" ++ escapedPw ++ "\""
              else exports
            exports ++ " && " ++ shellCmd
          else shellCmd
        let shellCmd :=
          if o.GCDToken ≠ "" ∧ storageName ≠ "" then
            "export DUPLICACY_" ++ upperEnvName storageName ++ "_GCD_TOKEN=\"" ++
              o.GCDToken ++ "\" && " ++ shellCmd
          else shellCmd
        "docker exec " ++ o.DockerContainer ++ " sh -c '" ++ shellCmd ++ "'"
      else
        "docker exec " ++ o.DockerContainer ++ " " ++ duplicacyCmd
    else duplicacyCmd
  if o.SSHHost ≠ "" then
    let duplicacyCmd :=
      "ssh -o StrictHostKeyChecking=no -o LogLevel=ERROR " ++ o.SSHHost ++
        " '" ++ escapeSq duplicacyCmd ++ "'"
    if o.SSHPassword ≠ "" then
      "sshpass -p '" ++ escapeSq o.SSHPassword ++ "' " ++ duplicacyCmd
    else duplicacyCmd
  else duplicacyCmd

/-- Stage 1 of the composition pipeline: the base invocation,
`duplicacyBin + " " + strings.Join(args, " ")` (line 178). -/
def baseCmd (duplicacyBin : String) (args : List String) : String :=
  duplicacyBin ++ " " ++ joinSpace args

/-- The effective working directory (lines 181-184): the cache directory
takes precedence over the repository path. -/
def workDirOf (o : Options) : String :=
  if o.CacheDir ≠ "" then o.CacheDir else o.RepoPath

/-- Stage 2: the `cd <dir> && ` prefix (lines 187-189). -/
def cdStage (o : Options) (cmd : String) : String :=
  if workDirOf o ≠ "" then "cd " ++ workDirOf o ++ " && " ++ cmd else cmd

/-- The credential export statements of lines 211-216: the generic variable,
plus the entity-specific variable when a storage name was given, joined by
` && `. -/
def exportsStr (o : Options) (storageName : String) : String :=
  let escapedPw := escapePw (getStoragePassword o storageName)
  let exports := "export DUPLICACY_PASSWORD=\"" ++ escapedPw ++ "\""
  if storageName ≠ "" then
    exports ++ " && export DUPLICACY_" ++ upperEnvName storageName ++
      "_PASSWORD=\"" ++ escapedPw ++ "\""
  else exports

/-- Stage 3: prepend the credential exports when the effective password is
non-empty (lines 201-218). -/
def exportsStage (o : Options) (storageName : String) (cmd : String) : String :=
  if getStoragePassword o storageName ≠ "" then
    exportsStr o storageName ++ " && " ++ cmd
  else cmd

/-- Stage 4: prepend the Google-Drive token export when a token path and a
storage name are both present (lines 221-225). -/
def tokenStage (o : Options) (storageName : String) (cmd : String) : String :=
  if o.GCDToken ≠ "" ∧ storageName ≠ "" then
    "export DUPLICACY_" ++ upperEnvName storageName ++ "_GCD_TOKEN=\"" ++
      o.GCDToken ++ "\" && " ++ cmd
  else cmd

/-- Stage 5: container wrapping (lines 192-232).  With a working directory or
a password the command-so-far (with exports applied) runs under an inner
`sh -c`; otherwise it is a plain `docker exec`. -/
def containerStage (o : Options) (storageName : String) (cmd : String) : String :=
  if o.DockerContainer ≠ "" then
    if workDirOf o ≠ "" ∨ getStoragePassword o storageName ≠ "" then
      "docker exec " ++ o.DockerContainer ++ " sh -c '" ++
        tokenStage o storageName (exportsStage o storageName cmd) ++ "'"
    else "docker exec " ++ o.DockerContainer ++ " " ++ cmd
  else cmd

/-- Stage 6: remote-shell wrapping (lines 235-246): single-quote-escape the
command, wrap in `ssh` with the fixed safety flags, and prefix `sshpass`
with the single-quote-escaped password when one is configured. -/
def sshStage (o : Options) (cmd : String) : String :=
  if o.SSHHost ≠ "" then
    let wrapped :=
      "ssh -o StrictHostKeyChecking=no -o LogLevel=ERROR " ++ o.SSHHost ++
        " '" ++ escapeSq cmd ++ "'"
    if o.SSHPassword ≠ "" then
      "sshpass -p '" ++ escapeSq o.SSHPassword ++ "' " ++ wrapped
    else wrapped
  else cmd

/-- The characters a backslash escapes inside a POSIX double-quoted string:
dollar, backtick, double quote and backslash. -/
def dqSpecial (c : Char) : Bool :=
  c = '$' || c = '`' || c = '"' || c = '\\'

/-- POSIX evaluation of the contents of a double-quoted string (the text that
stands between the two `"` of an `export VAR="..."` statement).  A backslash
before one of `$`, a backtick, `"` or `\` is removed; other backslashes stay
literal.  `none` models the cases where the text is not one literal string:
an unescaped `"` (the string would end early), or an unescaped `$` or
backtick (the shell would substitute, so the value depends on the
environment). -/
def dquoteEval : List Char → Option (List Char)
  | [] => some []
  | c :: rest =>
    if c = '\\' then
      match rest with
      | [] => none
      | d :: r2 =>
        if dqSpecial d then (dquoteEval r2).map (fun t => d :: t)
        else (dquoteEval r2).map (fun t => '\\' :: d :: t)
    else if c = '"' ∨ c = '$' ∨ c = '`' then none
    else (dquoteEval rest).map (fun t => c :: t)

/-- The quoting mode of a POSIX shell word evaluator: outside quotes, inside
single quotes, inside double quotes. -/
inductive QMode where
  | unq
  | sq
  | dq
deriving DecidableEq, Repr

/-- Characters that are not literal in an unquoted shell-word position
(expansion, globbing, word or command separators): evaluating them is
modelled as failure, since the word would not stay one literal string. -/
def unqSpecial (c : Char) : Bool :=
  [' ', '\t', '\n', '$', '`', ';', '&', '|', '<', '>', '(', ')', '*', '?',
    '[', ']', '#', '~'].contains c

/-- POSIX evaluation of one shell word under the three quoting modes.
Single quotes make everything literal until the closing quote; double quotes
follow `dquoteEval`'s rules; outside quotes a backslash escapes the next
character and the `unqSpecial` characters end the literal word.  `none` for
an unterminated quote or a non-literal construct. -/
def wordEval : QMode → List Char → Option (List Char)
  | .unq, [] => some []
  | .unq, c :: r =>
    if c = '\'' then wordEval .sq r
    else if c = '"' then wordEval .dq r
    else if c = '\\' then
      match r with
      | [] => none
      | d :: r2 => (wordEval .unq r2).map (fun t => d :: t)
    else if unqSpecial c then none
    else (wordEval .unq r).map (fun t => c :: t)
  | .sq, [] => none
  | .sq, c :: r =>
    if c = '\'' then wordEval .unq r
    else (wordEval .sq r).map (fun t => c :: t)
  | .dq, [] => none
  | .dq, c :: r =>
    if c = '"' then wordEval .unq r
    else if c = '\\' then
      match r with
      | [] => none
      | d :: r2 =>
        if dqSpecial d then (wordEval .dq r2).map (fun t => d :: t)
        else (wordEval .dq r2).map (fun t => '\\' :: d :: t)
    else if c = '$' ∨ c = '`' then none
    else (wordEval .dq r).map (fun t => c :: t)

/-- An observable external effect of the executor: launching one shell
command (`exec.Command("bash", "-c", cmd).Run()`). -/
inductive Effect where
  | execCmd (cmd : String)
deriving DecidableEq, Repr

/-- The outcome an external process would have, supplied as an oracle:
whether the process could be launched, its exit code, and its captured
standard output and error. -/
structure ProcResult where
  launchOk : Bool
  exitCode : Int
  stdout : String
  stderr : String

/-- Embeds `discoverDuplicacyPath` (lines 42-100) as a pure function of the
options and an oracle for the one discovery command it may run; the second
component lists the commands actually launched.  The `sync.Once` memoization
only caches this result, so a single call captures the behaviour.  Branch
order follows the source: explicit path, then no-container default, then
dry-run default, then the real discovery command (wrapped in ssh/sshpass by
the same code as the composer's remote stage). -/
def discoverDuplicacyPath (o : Options) (oracle : String → ProcResult) :
    Except String String × List Effect :=
  if o.DuplicacyPath ≠ "" then (.ok o.DuplicacyPath, [])
  else if o.DockerContainer = "" then (.ok "duplicacy", [])
  else if o.DryRun then (.ok "duplicacy", [])
  else
    let searchCmd := "docker exec " ++ o.DockerContainer ++
      " sh -c 'ls /config/bin/duplicacy_linux_x64_* 2>/dev/null | head -1'"
    let searchCmd := sshStage o searchCmd
    let r := oracle searchCmd
    if r.launchOk = false ∨ r.exitCode ≠ 0 then
      (.error "failed to discover duplicacy path", [.execCmd searchCmd])
    else
      let path := String.mk (trimSpaceL r.stdout.data)
      if path = "" then
        (.error "duplicacy CLI not found in /config/bin/", [.execCmd searchCmd])
      else (.ok path, [.execCmd searchCmd])

/-- Embeds `execute` (lines 264-277): stream mode.  A launch failure and a
non-zero exit are distinct errors; the non-zero exit carries the code. -/
def execute (oracle : String → ProcResult) (cmdStr : String) :
    Except String Unit × List Effect :=
  let r := oracle cmdStr
  if r.launchOk = false then (.error "failed to start command", [.execCmd cmdStr])
  else if r.exitCode ≠ 0 then
    (.error ("command exited with code " ++ toString r.exitCode), [.execCmd cmdStr])
  else (.ok (), [.execCmd cmdStr])

/-- Embeds `executeCapture` (lines 155-169): capture mode returns the
buffered standard output; a non-zero exit reports the code and the buffered
standard error. -/
def executeCapture (oracle : String → ProcResult) (cmdStr : String) :
    Except String String × List Effect :=
  let r := oracle cmdStr
  if r.launchOk = false then (.error "failed to start command", [.execCmd cmdStr])
  else if r.exitCode ≠ 0 then
    (.error ("command exited with code " ++ toString r.exitCode ++ ": " ++ r.stderr),
      [.execCmd cmdStr])
  else (.ok r.stdout, [.execCmd cmdStr])

/-- Embeds `RunDuplicacyWithStorage` (lines 108-128): discover the binary,
build the command, report it in dry-run mode without executing, otherwise
stream-execute.  (The verbose/dry-run `fmt.Printf` of the command is pure
reporting and launches nothing, so it is not an `Effect`.) -/
def RunDuplicacyWithStorage (o : Options) (oracle : String → ProcResult)
    (storageName : String) (args : List String) :
    Except String Unit × List Effect :=
  match discoverDuplicacyPath o oracle with
  | (.error e, effs) => (.error ("cannot find duplicacy: " ++ e), effs)
  | (.ok duplicacyBin, effs) =>
    let cmdStr := buildCommandWithStorage o duplicacyBin args storageName
    if o.DryRun then (.ok (), effs)
    else
      let r := execute oracle cmdStr
      (r.1, effs ++ r.2)

/-- Embeds `RunDuplicacyCaptureWithStorage` (lines 132-152): as the
streaming runner, but dry-run returns the empty string and success, and real
execution captures standard output. -/
def RunDuplicacyCaptureWithStorage (o : Options) (oracle : String → ProcResult)
    (storageName : String) (args : List String) :
    Except String String × List Effect :=
  match discoverDuplicacyPath o oracle with
  | (.error e, effs) => (.error ("cannot find duplicacy: " ++ e), effs)
  | (.ok duplicacyBin, effs) =>
    let cmdStr := buildCommandWithStorage o duplicacyBin args storageName
    if o.DryRun then (.ok "", effs)
    else
      let r := executeCapture oracle cmdStr
      (r.1, effs ++ r.2)

/-- The character classes occurring in the three `regexp` patterns of
internal/stats/stats.go: `\d`, `\s`, `\S`, `[\d,]`, `[KMGT]` and `[^|]`
(Go's Perl classes are ASCII: `\s` is tab, newline, form feed, carriage
return and space). -/
inductive CCls where
  | digit
  | space
  | nonspace
  | digitComma
  | kmgt
  | notPipe
deriving DecidableEq, Repr

/-- Go's `\s`: tab, newline, form feed, carriage return, space. -/
def isPerlSpace (c : Char) : Bool :=
  c = '\t' || c = '\n' || c = Char.ofNat 12 || c = '\r' || c = ' '

/-- Which characters a class matches. -/
def CCls.test : CCls → Char → Bool
  | .digit, c => c.isDigit
  | .space, c => isPerlSpace c
  | .nonspace, c => !(isPerlSpace c)
  | .digitComma, c => c.isDigit || c = ','
  | .kmgt, c => c = 'K' || c = 'M' || c = 'G' || c = 'T'
  | .notPipe, c => c ≠ '|'

/-- One token of a linearised regular expression: a literal run, a greedy
star / plus / optional over a character class, or a capture-group boundary.
The three patterns of the parser use only these constructs. -/
inductive RTok where
  | lit (s : List Char)
  | star (c : CCls)
  | plus (c : CCls)
  | opt (c : CCls)
  | gbeg (i : Nat)
  | gend (i : Nat)
deriving DecidableEq, Repr

/-- Backtracking matcher with Perl (leftmost-first) semantics, which is
exactly the submatch semantics Go's `regexp` package guarantees for these
patterns: greedy quantifiers try the longest extension first and the first
overall success wins.  The match succeeds as soon as the token list is
exhausted (a trailing remainder is allowed, as with `FindStringSubmatch`).
`st` stacks the input position at each open group; `caps` records, newest
first, each group's captured characters.  `fuel` only bounds the recursion
depth: every step consumes a character or a token, so any fuel larger than
`s.length + ps.length` never runs out. -/
def reRun : Nat → List RTok → List Char → List (Nat × List Char) →
    List (Nat × List Char) → Option (List (Nat × List Char))
  | 0, _, _, _, _ => none
  | _ + 1, [], _, _, caps => some caps
  | fuel + 1, .lit [] :: ps, s, st, caps => reRun fuel ps s st caps
  | _ + 1, .lit (_ :: _) :: _, [], _, _ => none
  | fuel + 1, .lit (c :: l) :: ps, x :: s, st, caps =>
    if x = c then reRun fuel (.lit l :: ps) s st caps else none
  | fuel + 1, .star _ :: ps, [], st, caps => reRun fuel ps [] st caps
  | fuel + 1, .star cc :: ps, x :: s, st, caps =>
    if cc.test x then
      match reRun fuel (.star cc :: ps) s st caps with
      | some r => some r
      | none => reRun fuel ps (x :: s) st caps
    else reRun fuel ps (x :: s) st caps
  | _ + 1, .plus _ :: _, [], _, _ => none
  | fuel + 1, .plus cc :: ps, x :: s, st, caps =>
    if cc.test x then reRun fuel (.star cc :: ps) s st caps else none
  | fuel + 1, .opt _ :: ps, [], st, caps => reRun fuel ps [] st caps
  | fuel + 1, .opt cc :: ps, x :: s, st, caps =>
    if cc.test x then
      match reRun fuel ps s st caps with
      | some r => some r
      | none => reRun fuel ps (x :: s) st caps
    else reRun fuel ps (x :: s) st caps
  | fuel + 1, .gbeg i :: ps, s, st, caps => reRun fuel ps s ((i, s) :: st) caps
  | fuel + 1, .gend i :: ps, s, st, caps =>
    match st.lookup i with
    | some t => reRun fuel ps s st ((i, t.take (t.length - s.length)) :: caps)
    | none => none

/-- Anchored match at the start of the line (the `^`-anchored patterns). -/
def reMatch (ps : List RTok) (s : List Char) : Option (List (Nat × List Char)) :=
  reRun (s.length + ps.length + 1) ps s [] []

/-- Unanchored leftmost search (`FindStringSubmatch` for a pattern without
`^`): try each start position from the left. -/
def reFind (ps : List RTok) (s : List Char) : Option (List (Nat × List Char)) :=
  match reMatch ps s with
  | some caps => some caps
  | none =>
    match s with
    | [] => none
    | _ :: t => reFind ps t

/-- The captured characters of group `i` (empty if the group is absent). -/
def capGet (caps : List (Nat × List Char)) (i : Nat) : List Char :=
  (caps.lookup i).getD []

/-- `totalChunksRe` (stats.go line 42):
`Total chunk size is ([\d,]+[KMGT]?) in ([\d,]+) chunks`. -/
def totalChunksToks : List RTok :=
  [.lit ("Total chunk size is ".data), .gbeg 1, .plus .digitComma, .opt .kmgt,
    .gend 1, .lit (" in ".data), .gbeg 2, .plus .digitComma, .gend 2,
    .lit (" chunks".data)]

/-- `allRowRe` (stats.go line 48): `^\s*(\S+)\s*\|\s*all\s*\|[^|]*\|[^|]*\|`
`[^|]*\|\s*([\d,]+)\s*\|\s*([\d,]+[KMGT]?)\s*\|\s*([\d,]+)\s*\|\s*`
`([\d,]+[KMGT]?)\s*\|`. -/
def allRowToks : List RTok :=
  [.star .space, .gbeg 1, .plus .nonspace, .gend 1, .star .space,
    .lit ("|".data), .star .space, .lit ("all".data), .star .space,
    .lit ("|".data), .star .notPipe, .lit ("|".data), .star .notPipe,
    .lit ("|".data), .star .notPipe, .lit ("|".data),
    .star .space, .gbeg 2, .plus .digitComma, .gend 2, .star .space,
    .lit ("|".data),
    .star .space, .gbeg 3, .plus .digitComma, .opt .kmgt, .gend 3,
    .star .space, .lit ("|".data),
    .star .space, .gbeg 4, .plus .digitComma, .gend 4, .star .space,
    .lit ("|".data),
    .star .space, .gbeg 5, .plus .digitComma, .opt .kmgt, .gend 5,
    .star .space, .lit ("|".data)]

/-- `revisionRe` (stats.go line 52): `^\s*(\S+)\s*\|\s*(\d+)\s*\|\s*@`. -/
def revisionToks : List RTok :=
  [.star .space, .gbeg 1, .plus .nonspace, .gend 1, .star .space,
    .lit ("|".data), .star .space, .gbeg 2, .plus .digit, .gend 2,
    .star .space, .lit ("|".data), .star .space, .lit ("@".data)]

/-- Embeds `RepoStats` (stats.go lines 25-30); Go `int`/`int64` become
`Int` (the build is 64-bit, so `int(x)` on an `int64` is the identity). -/
structure RepoStats where
  Revisions : Int
  TotalSize : Int
  UniqueSize : Int
  TotalChunks : Int
deriving DecidableEq, Repr

/-- Embeds `DayStats` (stats.go lines 15-22).  The Go map `Repositories`
becomes an association list: assignment conses the new entry in front (so
lookup sees the latest value, as a map overwrite does) and the map is empty
exactly when the list is `[]`. -/
structure DayStats where
  TotalSize : Int
  TotalChunks : Int
  PrunedChunks : Int
  PrunedRevisions : Int
  Status : String
  Repositories : List (String × RepoStats)
deriving DecidableEq, Repr

/-- Floor of log base 2 by fuelled halving; `log2Fuel n n` is exact for
every `n ≥ 1`, since `n < 2 ^ n` makes the fuel sufficient
(`log2Fuel_spec`).  Structural recursion on the fuel keeps the definition
kernel-computable; the halving stops as soon as the argument drops below
2, so the fuel bound is never the cost. -/
def log2Fuel : Nat → Nat → Nat
  | 0, _ => 0
  | fuel + 1, n => if 2 ≤ n then log2Fuel fuel (n / 2) + 1 else 0

/-- Round a natural number to the nearest float64-representable integer:
round to nearest, ties to even, 53-bit significand, unbounded exponent.
Below 2^53 every integer is exact; above, the value snaps to the nearest
multiple of `2^(b-52)` where `b` is the index of the most significant bit,
with a tie going to the even quotient.  This is what Go's correctly-rounded
`strconv.ParseFloat` produces for an integer decimal string (before the
overflow check). -/
def roundFloat64 (n : Nat) : Nat :=
  if n < 2 ^ 53 then n
  else
    let unit := 2 ^ (log2Fuel n n - 52)
    let q := n / unit
    let r := n % unit
    if r * 2 < unit then q * unit
    else if unit < r * 2 then (q + 1) * unit
    else if q % 2 = 0 then q * unit else (q + 1) * unit

/-- The largest `int64`, `2^63 - 1`. -/
def maxInt64 : Int := 9223372036854775807

/-- The smallest `int64`, `-2^63`. -/
def minInt64 : Int := -9223372036854775808

/-- Go's `int64(x)` for the non-negative float64 product
`val * float64(multiplier)` of `parseSize` — the product is exact, or +Inf
past 2^1024, since the multiplier is a power of two.  When the value does
not fit an int64 (+Inf included) the Go specification makes the conversion
result implementation-dependent; it is modelled as the linux/amd64 result
(the platform this tool targets — it discovers `duplicacy_linux_x64_*`
binaries), which is the minimum int64. -/
def goFloatToInt64 (x : Nat) : Int :=
  if (x : Int) ≤ maxInt64 then (x : Int) else minInt64

/-- `2^1024`, the float64 overflow bound (one past the largest finite
exponent), written as a decimal literal so comparisons against it evaluate
directly; `float64Cap_eq` checks the value. -/
def float64Cap : Nat := 179769313486231590772930519078902473361797697894230657273430081157732675805500963132708477322407536021120113879871393357658789768814416622492847430639474124377767893424865485276302219601246094119453082952085005768838150682342462881473913110540827237163350510684586298239947245938479716304835356329624224137216

/-- `strconv.ParseFloat` on the magnitudes the parser's captures produce
(a comma-stripped `[\d,]+` token, so a possibly-empty digit string).  The
empty or non-digit string is a syntax error; otherwise the value is the
correctly-rounded float64 of the integer — exact below 2^53, rounded to
nearest (ties to even) above — and a range error (Go's `ErrRange`) when the
rounded value reaches 2^1024, beyond the largest float64.  `none` covers
both error kinds, because `parseSize` treats every `ParseFloat` error
identically. -/
def parseFloatDigits (s : List Char) : Option Nat :=
  if s ≠ [] ∧ s.all Char.isDigit then
    let r := roundFloat64 (natOfDigits s)
    if float64Cap ≤ r then none else some r
  else none

/-- Embeds `parseSize` (stats.go lines 110-143): trim, strip commas, empty
means zero with no error, else a trailing K/M/G/T selects a 1024-based
multiplier and is stripped, the remaining magnitude is parsed as a float64
(`parseFloatDigits`), and the result is `int64(val * float64(multiplier))`
(`goFloatToInt64`); a failed magnitude yields `(0, error)`. -/
def parseSize (s : String) : Int × Option String :=
  let t := replaceAllC (trimSpaceL s.data) ',' []
  if t.isEmpty then (0, none)
  else
    let p : Nat × List Char :=
      match t.getLast? with
      | some 'K' => (1024, t.dropLast)
      | some 'M' => (1024 * 1024, t.dropLast)
      | some 'G' => (1024 * 1024 * 1024, t.dropLast)
      | some 'T' => (1024 * 1024 * 1024 * 1024, t.dropLast)
      | _ => (1, t)
    match parseFloatDigits p.2 with
    | some v => (goFloatToInt64 (v * p.1), none)
    | none => (0, some "failed to parse size")

/-- Embeds `parseNumber` (stats.go lines 146-155): trim, strip commas, empty
means zero with no error, else `strconv.ParseInt(s, 10, 64)` on the token —
which, restricted to the capture language (digit strings after comma
stripping), returns the value, or per Go's documentation the clamped
`maxInt64` together with a range error on overflow; a non-digit character
is a syntax error with value zero. -/
def parseNumber (s : String) : Int × Option String :=
  let t := replaceAllC (trimSpaceL s.data) ',' []
  if t.isEmpty then (0, none)
  else if t.all Char.isDigit then
    if (natOfDigits t : Int) > maxInt64 then (maxInt64, some "value out of range")
    else ((natOfDigits t : Int), none)
  else (0, some "invalid syntax")

/-- Embeds `strings.Split(output, "\n")`. -/
def splitLines : List Char → List (List Char)
  | [] => [[]]
  | c :: rest =>
    if c = '\n' then [] :: splitLines rest
    else
      match splitLines rest with
      | l :: ls => (c :: l) :: ls
      | [] => [[c]]

/-- The loop state of `ParseCheckOutput`: the statistics under construction
and the per-repository revision counters (`revisionCounts`, an association
list read through `getCount` with default 0). -/
structure PState where
  stats : DayStats
  revCounts : List (String × Int)
deriving DecidableEq, Repr

/-- `revisionCounts[name]` with Go's zero default for a missing key. -/
def getCount (m : List (String × Int)) (k : String) : Int :=
  (m.lookup k).getD 0

/-- One iteration of the line loop of `ParseCheckOutput` (stats.go lines
56-94), checking the three patterns in source order with `continue`
semantics: the summary line sets the day totals (each only when its token
parsed), a revision line increments that repository's counter, and an "all"
row overwrites the repository's entry using the row's values and the
revision counter accumulated so far.  (Group 4, the unique chunk count, is
parsed and discarded exactly as the source's `_ = uniqueChunks` does.) -/
def parseLine (st : PState) (line : List Char) : PState :=
  match reFind totalChunksToks line with
  | some caps =>
    let ps := parseSize (String.mk (capGet caps 1))
    let s1 := if ps.2 = none then { st.stats with TotalSize := ps.1 } else st.stats
    let pn := parseNumber (String.mk (capGet caps 2))
    let s2 := if pn.2 = none then { s1 with TotalChunks := pn.1 } else s1
    { st with stats := s2 }
  | none =>
    match reMatch revisionToks line with
    | some caps =>
      let repoName := String.mk (capGet caps 1)
      { st with revCounts := (repoName, getCount st.revCounts repoName + 1) :: st.revCounts }
    | none =>
      match reMatch allRowToks line with
      | some caps =>
        let repoName := String.mk (capGet caps 1)
        let chunks := (parseNumber (String.mk (capGet caps 2))).1
        let totalSize := (parseSize (String.mk (capGet caps 3))).1
        let uniqueSize := (parseSize (String.mk (capGet caps 5))).1
        { st with stats := { st.stats with Repositories :=
            (repoName,
              { Revisions := getCount st.revCounts repoName,
                TotalSize := totalSize, UniqueSize := uniqueSize,
                TotalChunks := chunks }) :: st.stats.Repositories } }
      | none => st

/-- Embeds `ParseCheckOutput` (stats.go lines 33-102): start from
`Status = "Checked"` and an empty repository map, fold the line loop over
the newline-split report, and fail with the no-statistics error when no
"all" row populated the map. -/
def ParseCheckOutput (output : String) : Except String DayStats :=
  let init : PState := ⟨⟨0, 0, 0, 0, "Checked", []⟩, []⟩
  let final := (splitLines output.data).foldl parseLine init
  if final.stats.Repositories.isEmpty then
    .error "no repository statistics found in check output"
  else .ok final.stats

/-! Helper lemmas about the string primitives. -/

theorem replaceAllC_append (a b : List Char) (old : Char) (new : List Char) :
    replaceAllC (a ++ b) old new = replaceAllC a old new ++ replaceAllC b old new := by
  induction a with
  | nil => rfl
  | cons c cs ih => by_cases h : c = old <;> simp [replaceAllC, h, ih]

/-- Character-wise description of the four-pass double-quote escaping:
specials get a protecting backslash, other characters pass through. -/
def escChar (c : Char) : List Char :=
  if c = '\\' ∨ c = '"' ∨ c = '$' ∨ c = '`' then ['\\', c] else [c]

/-- `escChar` mapped over a string. -/
def escAll : List Char → List Char
  | [] => []
  | c :: cs => escChar c ++ escAll cs

theorem escapePwL_append (a b : List Char) :
    escapePwL (a ++ b) = escapePwL a ++ escapePwL b := by
  simp [escapePwL, replaceAllC_append]

theorem escapePwL_single (c : Char) : escapePwL [c] = escChar c := by
  by_cases h1 : c = '\\'
  · subst h1; rfl
  · by_cases h2 : c = '"'
    · subst h2; rfl
    · by_cases h3 : c = '$'
      · subst h3; rfl
      · by_cases h4 : c = '`'
        · subst h4; rfl
        · simp [escapePwL, replaceAllC, escChar, h1, h2, h3, h4]

/-- The four sequential `ReplaceAll` passes of the source equal the
character-wise escaping: the backslash-first order prevents any
double-escaping, and later passes never create characters an earlier pass
would have rewritten. -/
theorem escapePwL_eq (s : List Char) : escapePwL s = escAll s := by
  induction s with
  | nil => rfl
  | cons c cs ih =>
    have : c :: cs = [c] ++ cs := rfl
    rw [this, escapePwL_append, escapePwL_single, ih]; rfl

theorem dquoteEval_escAll (s : List Char) : dquoteEval (escAll s) = some s := by
  induction s with
  | nil => rfl
  | cons c cs ih =>
    by_cases hsp : c = '\\' ∨ c = '"' ∨ c = '$' ∨ c = '`'
    · have he : escAll (c :: cs) = '\\' :: c :: escAll cs := by
        simp [escAll, escChar, hsp]
      have hd : dqSpecial c = true := by
        rcases hsp with h | h | h | h <;> simp [dqSpecial, h]
      rw [he, dquoteEval.eq_def]
      simp [hd, ih]
    · push_neg at hsp
      obtain ⟨h1, h2, h3, h4⟩ := hsp
      have he : escAll (c :: cs) = c :: escAll cs := by
        simp [escAll, escChar, h1, h2, h3, h4]
      rw [he, dquoteEval.eq_def]
      simp [h1, h2, h3, h4, ih]

theorem wordEval_sq_escape (s : List Char) :
    wordEval .sq (escapeSqL s ++ ['\'']) = some s := by
  induction s with
  | nil => rfl
  | cons c cs ih =>
    by_cases h : c = '\''
    · subst h
      have he : escapeSqL ('\'' :: cs) =
          '\'' :: '"' :: '\'' :: '"' :: '\'' :: escapeSqL cs := by
        simp [escapeSqL, replaceAllC]
      rw [he]
      simp [wordEval, ih]
      rw [wordEval.eq_def]
      simp [ih]
    · have he : escapeSqL (c :: cs) = c :: escapeSqL cs := by
        simp [escapeSqL, replaceAllC, h]
      rw [he]
      rw [wordEval.eq_def]
      simp [h, ih]

/-- C4: for every credential string — any combination of backslash, double
quote, dollar and backtick included — escaping it as `buildCommandWithStorage`
does for the double-quoted export statement (backslash first, then double
quote, then dollar, then backtick, each pass independent) and then
evaluating the double-quoted text under POSIX quoting rules yields back
exactly the original credential. -/
theorem double_quote_escape_roundtrip (s : String) :
    dquoteEval (escapePw s).data = some s.data := by
  show dquoteEval (escapePwL s.data) = some s.data
  rw [escapePwL_eq]
  exact dquoteEval_escAll s.data

/-- C5: for every command string and every remote password — single quotes
included — the single-quote escaping of the remote-shell layer (each `'`
becomes `'"'"'`) followed by POSIX evaluation of the resulting
single-quoted shell word yields back exactly the original string, both for
the wrapped command and for the password handed to the `sshpass` wrapper. -/
theorem single_quote_escape_roundtrip (cmd pw : String) :
    wordEval .unq ('\'' :: (escapeSq cmd).data ++ ['\'']) = some cmd.data ∧
    wordEval .unq ('\'' :: (escapeSq pw).data ++ ['\'']) = some pw.data := by
  have h : ∀ t : List Char, wordEval .unq ('\'' :: escapeSqL t ++ ['\'']) = some t := by
    intro t
    rw [wordEval.eq_def]
    simp [wordEval_sq_escape t]
  exact ⟨h cmd.data, h pw.data⟩

/-- C1 (counterexample): with no container name, a non-empty effective
credential and the base command `duplicacy backup`, composition returns the
bare base command — no export statement is prepended, contradicting the
claim that exports are prepended regardless of whether a container name is
set (they would have produced the third string). -/
theorem exports_skipped_without_container_cex :
    getStoragePassword { StoragePassword := "pw" } "" = "pw" ∧
    buildCommandWithStorage { StoragePassword := "pw" } "duplicacy" ["backup"] "" =
      "duplicacy backup" ∧
    ("duplicacy backup" : String) ≠
      "export DUPLICACY_PASSWORD=\"pw\" && duplicacy backup" := by
  exact ⟨rfl, rfl, by decide⟩

/-- C1 (amended): for every execution context and entity name, when a
container name is set and the effective credential (per-entity if present,
else default) is non-empty, compose prepends the export statements — the
generic credential variable, plus the entity-specific variable (entity name
uppercased, `-` to `_`) when an entity name was given — joined by `&&`, to
the working-directory-prefixed command, inside the container's `sh -c`
wrapping; without a container name no exports are emitted. -/
theorem exports_only_inside_container (o : Options) (bin : String)
    (args : List String) (name : String) (hc : o.DockerContainer ≠ "")
    (hp : getStoragePassword o name ≠ "") :
    buildCommandWithStorage o bin args name =
      sshStage o ("docker exec " ++ o.DockerContainer ++ " sh -c '" ++
        tokenStage o name (exportsStr o name ++ " && " ++ cdStage o (baseCmd bin args)) ++
        "'") := by
  have h0 : buildCommandWithStorage o bin args name =
      sshStage o (containerStage o name (cdStage o (baseCmd bin args))) := rfl
  rw [h0]
  unfold containerStage exportsStage
  simp [hc, hp]

/-- Closed instance of `exports_only_inside_container` at a concrete
context with container `C`, default credential `pw` and entity `my-st`. -/
theorem exports_only_inside_container_witness :
    buildCommandWithStorage { DockerContainer := "C", StoragePassword := "pw" }
        "duplicacy" ["backup"] "my-st" =
      sshStage { DockerContainer := "C", StoragePassword := "pw" }
        ("docker exec " ++ "C" ++ " sh -c '" ++
          tokenStage { DockerContainer := "C", StoragePassword := "pw" } "my-st"
            (exportsStr { DockerContainer := "C", StoragePassword := "pw" } "my-st" ++
              " && " ++
              cdStage { DockerContainer := "C", StoragePassword := "pw" }
                (baseCmd "duplicacy" ["backup"])) ++ "'") :=
  exports_only_inside_container _ "duplicacy" ["backup"] "my-st"
    (by decide) (by decide)

/-- C6: composition layers strictly as base command, then `cd`, then env
exports, then container wrap, then remote wrap.  First conjunct: with a
container only (no working directory, credential or token), any binary `b`
with arguments `list -storage test` composes to exactly
`docker exec C b list -storage test`, with no inner `sh -c`.  Second
conjunct: every composition is the pipeline of the six stages in that
order.  Third conjunct: with both a container and a remote host, the
container wrapping is nested inside the remote-shell wrapping. -/
theorem compose_layering :
    (∀ b : String,
      buildCommandWithStorage { DockerContainer := "C" } b ["list", "-storage", "test"] "" =
        "docker exec C " ++ b ++ " list -storage test") ∧
    (∀ (o : Options) (bin : String) (args : List String) (name : String),
      buildCommandWithStorage o bin args name =
        sshStage o (containerStage o name (cdStage o (baseCmd bin args)))) ∧
    buildCommandWithStorage { DockerContainer := "C", SSHHost := "h" }
        "duplicacy" ["list", "-storage", "test"] "" =
      "ssh -o StrictHostKeyChecking=no -o LogLevel=ERROR h " ++
        "'docker exec C duplicacy list -storage test'" := by
  refine ⟨?_, fun o bin args name => rfl, rfl⟩
  intro b
  unfold buildCommandWithStorage
  simp [getStoragePassword, joinSpace]
  apply String.ext
  simp [String.data_append]

/-- C9: in dry-run mode, for every execution context, oracle, storage name
and argument list, the capturing runner returns the empty string with
success, the streaming runner returns success, and the effect trace is
empty — no external process is launched, not even the binary locator's
discovery command — so no execution-time error can arise. -/
theorem dry_run_no_process (o : Options) (oracle : String → ProcResult)
    (storageName : String) (args : List String) (h : o.DryRun = true) :
    RunDuplicacyCaptureWithStorage o oracle storageName args = (.ok "", []) ∧
    RunDuplicacyWithStorage o oracle storageName args = (.ok (), []) := by
  obtain ⟨p, hd⟩ : ∃ p, discoverDuplicacyPath o oracle = (.ok p, []) := by
    unfold discoverDuplicacyPath
    by_cases h1 : o.DuplicacyPath ≠ ""
    · exact ⟨o.DuplicacyPath, by simp [h1]⟩
    · by_cases h2 : o.DockerContainer = ""
      · exact ⟨"duplicacy", by simp [h1, h2]⟩
      · exact ⟨"duplicacy", by simp [h1, h2, h]⟩
  constructor
  · unfold RunDuplicacyCaptureWithStorage
    rw [hd]
    simp [h]
  · unfold RunDuplicacyWithStorage
    rw [hd]
    simp [h]

/-- Closed instance of `dry_run_no_process` at a concrete dry-run context
and an always-succeeding oracle. -/
theorem dry_run_no_process_witness :
    RunDuplicacyCaptureWithStorage { DryRun := true }
        (fun _ => ⟨true, 0, "", ""⟩) "st" ["check"] = (.ok "", []) ∧
    RunDuplicacyWithStorage { DryRun := true }
        (fun _ => ⟨true, 0, "", ""⟩) "st" ["check"] = (.ok (), []) :=
  dry_run_no_process _ _ "st" ["check"] rfl

theorem parseLine_pres (st : PState) (line : List Char) :
    (parseLine st line).stats.Status = st.stats.Status ∧
    (parseLine st line).stats.PrunedChunks = st.stats.PrunedChunks ∧
    (parseLine st line).stats.PrunedRevisions = st.stats.PrunedRevisions := by
  unfold parseLine
  cases reFind totalChunksToks line with
  | some caps =>
    simp only []
    split <;> split <;> simp
  | none =>
    cases reMatch revisionToks line with
    | some caps => simp
    | none =>
      cases reMatch allRowToks line with
      | some caps => simp
      | none => simp

theorem parseLine_frame_repos (st : PState) (line : List Char)
    (h : reMatch allRowToks line = none) :
    (parseLine st line).stats.Repositories = st.stats.Repositories := by
  unfold parseLine
  cases reFind totalChunksToks line with
  | some caps =>
    simp only []
    split <;> split <;> simp
  | none =>
    cases reMatch revisionToks line with
    | some caps => simp
    | none =>
      rw [h]

theorem foldl_frame_repos (ls : List (List Char)) : ∀ st : PState,
    (∀ l ∈ ls, reMatch allRowToks l = none) →
    ((ls.foldl parseLine st).stats.Repositories = st.stats.Repositories) := by
  induction ls with
  | nil => intro st _; rfl
  | cons a t ih =>
    intro st h
    simp only [List.foldl_cons]
    rw [ih (parseLine st a) (fun l hl => h l (by simp [hl]))]
    exact parseLine_frame_repos st a (h a (by simp))

theorem foldl_pres (ls : List (List Char)) : ∀ st : PState,
    ((ls.foldl parseLine st).stats.Status = st.stats.Status ∧
     (ls.foldl parseLine st).stats.PrunedChunks = st.stats.PrunedChunks ∧
     (ls.foldl parseLine st).stats.PrunedRevisions = st.stats.PrunedRevisions) := by
  induction ls with
  | nil => intro st; exact ⟨rfl, rfl, rfl⟩
  | cons a t ih =>
    intro st
    have h1 := parseLine_pres st a
    have h2 := ih (parseLine st a)
    simp only [List.foldl_cons]
    exact ⟨h2.1.trans h1.1, h2.2.1.trans h1.2.1, h2.2.2.trans h1.2.2⟩

/-- C8: for every report text in which no line matches the entity-summary
("all") row pattern, `ParseCheckOutput` returns the
"no repository statistics found" error — summary lines or revision lines
elsewhere in the text change nothing, and a report is never a valid empty
result. -/
theorem no_all_row_is_error (output : String)
    (h : ∀ l ∈ splitLines output.data, reMatch allRowToks l = none) :
    ParseCheckOutput output = .error "no repository statistics found in check output" := by
  have hrep := foldl_frame_repos (splitLines output.data) ⟨⟨0, 0, 0, 0, "Checked", []⟩, []⟩ h
  simp only [ParseCheckOutput]
  rw [hrep]
  rfl

/-- Closed instance of `no_all_row_is_error`: a report with a summary line
and a revision line but no "all" row still fails. -/
theorem no_all_row_is_error_witness :
    ParseCheckOutput "Total chunk size is 1K in 2 chunks\n a | 1 | @ d" =
      .error "no repository statistics found in check output" :=
  no_all_row_is_error _ (by decide)

/-- C10: whenever parsing succeeds, the returned day statistics carry the
literal status `"Checked"` and zero pruned chunks and pruned revisions: the
line loop never writes these three fields, so they keep their initial
values. -/
theorem parser_fixed_fields (output : String) (d : DayStats)
    (h : ParseCheckOutput output = .ok d) :
    d.Status = "Checked" ∧ d.PrunedChunks = 0 ∧ d.PrunedRevisions = 0 := by
  have hp := foldl_pres (splitLines output.data) ⟨⟨0, 0, 0, 0, "Checked", []⟩, []⟩
  simp only [ParseCheckOutput] at h
  split at h
  · simp at h
  · simp only [Except.ok.injEq] at h
    subst h
    exact hp

/-- Closed instance of `parser_fixed_fields` at a one-row report. -/
theorem parser_fixed_fields_witness :
    (⟨0, 0, 0, 0, "Checked", [("r1", ⟨0, 2048, 2048, 3⟩)]⟩ : DayStats).Status = "Checked" ∧
    (⟨0, 0, 0, 0, "Checked", [("r1", ⟨0, 2048, 2048, 3⟩)]⟩ : DayStats).PrunedChunks = 0 ∧
    (⟨0, 0, 0, 0, "Checked", [("r1", ⟨0, 2048, 2048, 3⟩)]⟩ : DayStats).PrunedRevisions = 0 :=
  parser_fixed_fields " r1 | all |  |  |  | 3 | 2K | 3 | 2K |"
    ⟨0, 0, 0, 0, "Checked", [("r1", ⟨0, 2048, 2048, 3⟩)]⟩ (by rfl)

/-- C2 (counterexample): the claim's example fails when the "all" row
precedes the revision lines: a report whose first line is the "all" row for
`X` with chunk count 25, followed by five revision lines for `X`, parses to
`Revisions = 0` (not 5) for `X` — the pattern matching is line-by-line, but
the revision counter is snapshotted when the "all" row is processed, so the
result is not order-insensitive. -/
theorem revision_count_order_cex :
    (ParseCheckOutput (" X | all |  |  |  | 25 | 100K | 25 | 100K |\n X | 1 | @ d\n X | 2 | @ d\n X | 3 | @ d\n X | 4 | @ d\n X | 5 | @ d")).toOption.map
        (fun d => (d.Repositories.lookup "X").map (fun r => (r.Revisions, r.TotalChunks))) =
      some (some (0, 25)) ∧ (0 : Int) ≠ 5 :=
  ⟨rfl, by decide⟩

/-- C2 (amended): the three line patterns are matched line-by-line and may
be interleaved with log lines and the summary line in any way, but an
entity's revision count reflects only the revision lines that precede the
entity's last "all" row: a report with five revision lines for `X` (with a
log line and the summary line interleaved) followed by `X`'s "all" row with
chunk count 25 yields `Revisions = 5` and `TotalChunks = 25`. -/
theorem revision_count_before_all_row :
    (ParseCheckOutput ("log line\n X | 1 | @ d\nTotal chunk size is 1K in 2 chunks\n X | 2 | @ d\n X | 3 | @ d\n X | 4 | @ d\n X | 5 | @ d\n X | all |  |  |  | 25 | 100K | 25 | 100K |")).toOption.map
        (fun d => (d.Repositories.lookup "X").map (fun r => (r.Revisions, r.TotalChunks))) =
      some (some (5, 25)) := rfl

/-- C3 (counterexample): an "all" row whose chunk-count token overflows a
64-bit integer makes `parseNumber` fail — yet parsing succeeds with no
error, and the field holds the clamped maximum value, not zero: the failed
token is neither treated as zero nor surfaced as a parse error. -/
theorem token_error_swallowed_cex :
    (parseNumber "99999999999999999999").2 ≠ none ∧
    (ParseCheckOutput " X | all |  |  |  | 99999999999999999999 | 1K | 1 | 1K |").toOption.map
        (fun d => (d.Repositories.lookup "X").map RepoStats.TotalChunks) =
      some (some 9223372036854775807) ∧
    (9223372036854775807 : Int) ≠ 0 :=
  ⟨by decide, rfl, by decide⟩

/-- C3 (amended): token parse failures never abort the parse and are never
surfaced: the only error `ParseCheckOutput` ever returns is the
no-statistics one, and a failed pure-integer token evaluates to zero (syntax
failure) or to the clamped maximum 64-bit value (range overflow), which is
what an "all" row field then stores.  (A token with a trailing letter cannot
even reach a pure-integer field, which is captured as `[\d,]+`.) -/
theorem token_failures_never_abort :
    (∀ output e, ParseCheckOutput output = .error e →
      e = "no repository statistics found in check output") ∧
    (∀ s : String, (parseNumber s).2 ≠ none →
      (parseNumber s).1 = 0 ∨ (parseNumber s).1 = maxInt64) := by
  constructor
  · intro output e h
    simp only [ParseCheckOutput] at h
    split at h
    · simp only [Except.error.injEq] at h
      exact h.symm
    · simp at h
  · intro s h
    by_cases h1 : (replaceAllC (trimSpaceL s.data) ',' []).isEmpty
    · simp [parseNumber, h1] at h
    · by_cases h2 : (replaceAllC (trimSpaceL s.data) ',' []).all Char.isDigit
      · by_cases h3 : ((natOfDigits (replaceAllC (trimSpaceL s.data) ',' []) : Int) > maxInt64)
        · right
          simp [parseNumber, h1, h2, h3]
        · simp [parseNumber, h1, h2, h3] at h
      · left
        simp [parseNumber, h1, h2]

/-- Closed instance of `token_failures_never_abort`: the error of a rowless
report is the no-statistics message, and an overflowing token's value is
zero or the clamp. -/
theorem token_failures_never_abort_witness :
    ("no repository statistics found in check output" =
      "no repository statistics found in check output") ∧
    ((parseNumber "12345678901234567890123").1 = 0 ∨
      (parseNumber "12345678901234567890123").1 = maxInt64) :=
  ⟨token_failures_never_abort.1 "x" _ rfl,
   token_failures_never_abort.2 "12345678901234567890123" (by decide)⟩

theorem dropWhile_all_neg {p : Char → Bool} (l : List Char)
    (h : ∀ c ∈ l, p c = false) : l.dropWhile p = l := by
  cases l with
  | nil => rfl
  | cons a t => simp [List.dropWhile, h a (by simp)]

theorem trimSpaceL_id (l : List Char) (h : ∀ c ∈ l, isGoSpace c = false) :
    trimSpaceL l = l := by
  unfold trimSpaceL
  rw [dropWhile_all_neg l h,
    dropWhile_all_neg l.reverse (fun c hc => h c (List.mem_reverse.mp hc)),
    List.reverse_reverse]

theorem replaceAllC_id (l : List Char) (old : Char) (new : List Char)
    (h : ∀ c ∈ l, c ≠ old) : replaceAllC l old new = l := by
  induction l with
  | nil => rfl
  | cons a t ih =>
    simp [replaceAllC, h a (by simp), ih (fun c hc => h c (by simp [hc]))]

theorem digit_not_space (c : Char) (h : c.isDigit = true) : isGoSpace c = false := by
  by_contra hs
  rw [Bool.not_eq_false] at hs
  simp only [isGoSpace, Bool.or_eq_true, decide_eq_true_eq] at hs
  rcases hs with ((((h1 | h1) | h1) | h1) | h1) | h1 <;> subst h1 <;>
    exact absurd h (by decide)

theorem digit_not_comma (c : Char) (h : c.isDigit = true) : c ≠ ',' := by
  intro he
  subst he
  exact absurd h (by decide)

/-- The decimal literal `float64Cap` is `2 ^ 1024`. -/
theorem float64Cap_eq : float64Cap = 2 ^ 1024 := by
  norm_num [float64Cap]

/-- `log2Fuel` is the floor of log base 2 whenever the fuel covers the bit
length; with fuel `n` (as `roundFloat64` calls it) this holds for every
positive `n`, since `n < 2 ^ n`. -/
theorem log2Fuel_spec : ∀ (fuel n : Nat), 1 ≤ n → n < 2 ^ fuel →
    2 ^ log2Fuel fuel n ≤ n ∧ n < 2 ^ (log2Fuel fuel n + 1) := by
  intro fuel
  induction fuel with
  | zero =>
    intro n h1 h2
    simp at h2
    omega
  | succ f ih =>
    intro n h1 h2
    simp only [log2Fuel]
    by_cases h : 2 ≤ n
    · simp only [h, if_true]
      have hd1 : 1 ≤ n / 2 := by omega
      have hd2 : n / 2 < 2 ^ f := by
        rw [pow_succ] at h2
        omega
      obtain ⟨a, b⟩ := ih (n / 2) hd1 hd2
      constructor
      · have e1 : (2 : Nat) ^ (log2Fuel f (n / 2) + 1) = 2 ^ log2Fuel f (n / 2) * 2 :=
          pow_succ 2 _
        omega
      · have e1 : (2 : Nat) ^ (log2Fuel f (n / 2) + 1 + 1) = 2 ^ (log2Fuel f (n / 2) + 1) * 2 :=
          pow_succ 2 _
        omega
    · simp only [h, if_false]
      have hn1 : n = 1 := by omega
      norm_num [hn1]

/-- Exactness of the float64 model below 2^53. -/
theorem roundFloat64_small (n : Nat) (h : n < 2 ^ 53) : roundFloat64 n = n := by
  unfold roundFloat64
  split
  · rfl
  · next hc => exact absurd h hc

/-- `parseFloatDigits` is exact on digit strings whose value is below 2^53
(every such value is a float64, and far below the overflow bound). -/
theorem parseFloatDigits_small (s : List Char) (hne : s ≠ [])
    (hdig : s.all Char.isDigit = true) (h : natOfDigits s < 2 ^ 53) :
    parseFloatDigits s = some (natOfDigits s) := by
  have hcap : ¬ (float64Cap ≤ natOfDigits s) := by
    have h2 : (2 : Nat) ^ 53 ≤ float64Cap := by norm_num [float64Cap]
    omega
  simp [parseFloatDigits, hne, hdig, roundFloat64_small _ h, hcap]

/-- Fidelity of the float64 model above 2^53: `9007199254740993` (2^53 + 1,
a rounding tie) parses to `9007199254740992` (2^53, the even neighbour),
exactly as Go's correctly-rounded `strconv.ParseFloat` rounds it — not to
itself. -/
theorem parseSize_rounds_above_two_pow_53 :
    parseSize "9007199254740993" = ((9007199254740992 : Int), none) := by
  rfl

set_option maxRecDepth 100000 in
/-- Fidelity of the float64 model past its range: a 310-digit magnitude
(10^309, beyond the largest float64) is a `ParseFloat` range error, so
`parseSize` returns zero and an error, as Go does. -/
theorem parseSize_range_overflow :
    parseSize (String.mk ('1' :: List.replicate 309 '0')) =
      (0, some "failed to parse size") := by
  rfl

/-- `parseSize` on a plain digit string in the float64-exact range: no
suffix, so the value itself. -/
theorem parseSize_digits (ds : List Char) (hne : ds ≠ [])
    (hdig : ds.all Char.isDigit = true) (hb : natOfDigits ds < 2 ^ 53) :
    parseSize (String.mk ds) = ((natOfDigits ds : Int), none) := by
  have hmem := List.all_eq_true.mp hdig
  have ht : trimSpaceL ds = ds :=
    trimSpaceL_id ds (fun c hc => digit_not_space c (by simpa using hmem c hc))
  have hc : replaceAllC ds ',' [] = ds :=
    replaceAllC_id ds ',' [] (fun c hc => digit_not_comma c (by simpa using hmem c hc))
  have hpf := parseFloatDigits_small ds hne hdig hb
  have hfit : ((natOfDigits ds : Nat) : Int) ≤ maxInt64 := by
    have h2 : (2 : Nat) ^ 53 ≤ 9223372036854775807 := by norm_num
    simp only [maxInt64]
    omega
  simp only [parseSize]
  rw [ht, hc]
  rcases hlast : ds.getLast? with _ | c
  · exact absurd (List.getLast?_eq_none_iff.mp hlast) hne
  · have hcd : c.isDigit = true := by
      simpa using hmem c (List.mem_of_mem_getLast? hlast)
    have hKc : c ≠ 'K' := fun he => absurd hcd (by rw [he]; decide)
    have hMc : c ≠ 'M' := fun he => absurd hcd (by rw [he]; decide)
    have hGc : c ≠ 'G' := fun he => absurd hcd (by rw [he]; decide)
    have hTc : c ≠ 'T' := fun he => absurd hcd (by rw [he]; decide)
    simp [hne, hlast, hKc, hMc, hGc, hTc, hpf, goFloatToInt64, hfit]

/-- `parseSize` on a digit string with a K/M/G/T suffix, in the range where
float64 arithmetic is exact: the binary multiplier is applied to the
magnitude. -/
theorem parseSize_digits_suffix (ds : List Char) (suf : Char) (mult : Nat)
    (hne : ds ≠ []) (hdig : ds.all Char.isDigit = true)
    (hsuf : (suf = 'K' ∧ mult = 1024) ∨ (suf = 'M' ∧ mult = 1024 * 1024) ∨
      (suf = 'G' ∧ mult = 1024 * 1024 * 1024) ∨
      (suf = 'T' ∧ mult = 1024 * 1024 * 1024 * 1024))
    (hb : natOfDigits ds * mult < 2 ^ 53) :
    parseSize (String.mk (ds ++ [suf])) =
      ((natOfDigits ds : Int) * (mult : Int), none) := by
  have hmem := List.all_eq_true.mp hdig
  have hmpos : 0 < mult := by
    rcases hsuf with ⟨_, hm⟩ | ⟨_, hm⟩ | ⟨_, hm⟩ | ⟨_, hm⟩ <;> subst hm <;> norm_num
  have hn : natOfDigits ds < 2 ^ 53 := by
    have h1 : natOfDigits ds ≤ natOfDigits ds * mult := Nat.le_mul_of_pos_right _ hmpos
    omega
  have hpf := parseFloatDigits_small ds hne hdig hn
  have hfit : ((natOfDigits ds * mult : Nat) : Int) ≤ maxInt64 := by
    have h2 : (2 : Nat) ^ 53 ≤ 9223372036854775807 := by norm_num
    simp only [maxInt64]
    omega
  have hgo : goFloatToInt64 (natOfDigits ds * mult) =
      (natOfDigits ds : Int) * (mult : Int) := by
    unfold goFloatToInt64
    rw [if_pos hfit, Nat.cast_mul]
  have hsufd : isGoSpace suf = false ∧ suf ≠ ',' := by
    rcases hsuf with ⟨h, _⟩ | ⟨h, _⟩ | ⟨h, _⟩ | ⟨h, _⟩ <;> subst h <;>
      exact ⟨by decide, by decide⟩
  have ht : trimSpaceL (ds ++ [suf]) = ds ++ [suf] := by
    refine trimSpaceL_id _ (fun c hc => ?_)
    rcases List.mem_append.mp hc with hin | hin
    · exact digit_not_space c (by simpa using hmem c hin)
    · rw [List.mem_singleton.mp hin]; exact hsufd.1
  have hc : replaceAllC (ds ++ [suf]) ',' [] = ds ++ [suf] := by
    refine replaceAllC_id _ _ _ (fun c hc => ?_)
    rcases List.mem_append.mp hc with hin | hin
    · exact digit_not_comma c (by simpa using hmem c hin)
    · rw [List.mem_singleton.mp hin]; exact hsufd.2
  simp only [parseSize]
  rw [ht, hc]
  have hlast : (ds ++ [suf]).getLast? = some suf := List.getLast?_concat ds
  have hdrop : (ds ++ [suf]).dropLast = ds := List.dropLast_concat
  have hnee : (ds ++ [suf]).isEmpty = false := by
    simp [List.isEmpty_iff]
  rcases hsuf with ⟨h, hm⟩ | ⟨h, hm⟩ | ⟨h, hm⟩ | ⟨h, hm⟩ <;> subst h <;> subst hm <;>
    simp [hnee, hlast, hdrop, hpf, hgo]

/-- C7: the size lexer treats K/M/G/T as binary (1024-based) multipliers on
the comma-stripped magnitude and non-size tokens as comma-stripped plain
integers: a report whose summary line is
`Total chunk size is 4,617M in 975 chunks` yields a day total size of
exactly 4617·1024·1024 bytes and a chunk count of 975; `1,234` parses to
1234; and for every digit string whose scaled value stays below 2^53 — the
range in which the float64 the magnitude passes through is exact — each of
the four suffixes multiplies the magnitude by the corresponding power of
1024.  (Above 2^53 the magnitude is the correctly-rounded float64, see
`parseSize_rounds_above_two_pow_53` and `parseSize_range_overflow`.) -/
theorem size_lexer_binary_multipliers :
    (ParseCheckOutput "Total chunk size is 4,617M in 975 chunks\n X | all |  |  |  | 25 | 100K | 25 | 100K |").toOption.map
        (fun d => (d.TotalSize, d.TotalChunks)) = some (4617 * 1024 * 1024, 975) ∧
    parseNumber "1,234" = (1234, none) ∧
    (∀ ds : List Char, ds ≠ [] → ds.all Char.isDigit = true →
      (natOfDigits ds < 2 ^ 53 →
        parseSize (String.mk ds) = ((natOfDigits ds : Int), none)) ∧
      (natOfDigits ds * 1024 < 2 ^ 53 →
        parseSize (String.mk (ds ++ ['K'])) = ((natOfDigits ds : Int) * 1024, none)) ∧
      (natOfDigits ds * (1024 * 1024) < 2 ^ 53 →
        parseSize (String.mk (ds ++ ['M'])) =
          ((natOfDigits ds : Int) * (1024 * 1024), none)) ∧
      (natOfDigits ds * (1024 * 1024 * 1024) < 2 ^ 53 →
        parseSize (String.mk (ds ++ ['G'])) =
          ((natOfDigits ds : Int) * (1024 * 1024 * 1024), none)) ∧
      (natOfDigits ds * (1024 * 1024 * 1024 * 1024) < 2 ^ 53 →
        parseSize (String.mk (ds ++ ['T'])) =
          ((natOfDigits ds : Int) * (1024 * 1024 * 1024 * 1024), none))) := by
  refine ⟨rfl, rfl, fun ds hne hdig => ?_⟩
  refine ⟨fun hb => parseSize_digits ds hne hdig hb, fun hb => ?_, fun hb => ?_,
    fun hb => ?_, fun hb => ?_⟩
  · simpa using parseSize_digits_suffix ds 'K' 1024 hne hdig (Or.inl ⟨rfl, rfl⟩) hb
  · simpa using parseSize_digits_suffix ds 'M' (1024 * 1024) hne hdig
      (Or.inr (Or.inl ⟨rfl, rfl⟩)) hb
  · simpa using parseSize_digits_suffix ds 'G' (1024 * 1024 * 1024) hne hdig
      (Or.inr (Or.inr (Or.inl ⟨rfl, rfl⟩))) hb
  · simpa using parseSize_digits_suffix ds 'T' (1024 * 1024 * 1024 * 1024) hne hdig
      (Or.inr (Or.inr (Or.inr ⟨rfl, rfl⟩))) hb

/-- Closed instance of `size_lexer_binary_multipliers` at the digit string
`4617` with all four suffixes (4617·1024^4 is far below 2^53). -/
theorem size_lexer_binary_multipliers_witness :
    parseSize (String.mk ("4617".data)) = ((natOfDigits "4617".data : Int), none) ∧
    parseSize (String.mk ("4617".data ++ ['K'])) =
      ((natOfDigits "4617".data : Int) * 1024, none) ∧
    parseSize (String.mk ("4617".data ++ ['M'])) =
      ((natOfDigits "4617".data : Int) * (1024 * 1024), none) ∧
    parseSize (String.mk ("4617".data ++ ['G'])) =
      ((natOfDigits "4617".data : Int) * (1024 * 1024 * 1024), none) ∧
    parseSize (String.mk ("4617".data ++ ['T'])) =
      ((natOfDigits "4617".data : Int) * (1024 * 1024 * 1024 * 1024), none) :=
  ⟨(size_lexer_binary_multipliers.2.2 "4617".data (by decide) (by decide)).1 (by decide),
   (size_lexer_binary_multipliers.2.2 "4617".data (by decide) (by decide)).2.1 (by decide),
   (size_lexer_binary_multipliers.2.2 "4617".data (by decide) (by decide)).2.2.1 (by decide),
   (size_lexer_binary_multipliers.2.2 "4617".data (by decide) (by decide)).2.2.2.1 (by decide),
   (size_lexer_binary_multipliers.2.2 "4617".data (by decide) (by decide)).2.2.2.2 (by decide)⟩

end Duplicaci
